import Mathlib

/-!
Verification of the `acl` connection-pool engine
(`lib_acl_cpp/src/connpool/connect_pool.cpp`).

The C++ class `connect_pool` is embedded shallowly: the pool's fields become
a Lean structure, member functions become pure Lean functions on that
structure, and the two external effects (the wall clock `time(NULL)` and the
outcome of `conn->open()`) become explicit arguments.  `delete this` and a
firing `acl_assert` are represented by dedicated terminal machine states.
-/

namespace Acl

/-- A pooled connection (`connect_client`).  Only the identity and the
last-returned timestamp (`set_when` / `get_when`) matter to the pool logic;
`id` names the object so that object identity across checkout/checkin can be
stated.  The header of `connect_client` is not part of the sources; modelled
from the spec: a connection carries a last-active timestamp readable and
writable by the pool. -/
structure Conn where
  id : Nat
  when_ : Int
deriving DecidableEq, Repr

/-- The state of one `connect_pool` object: the member fields set up by the
constructor (`connect_pool.cpp` lines 10-26).  The field declarations live in
the header `connect_pool.hpp`, which is not among the sources; the field list
and initial values are taken from the constructor's initializer list, and
`count_` is modelled as a signed integer (`Int`) matching the code's
comparisons `count_ <= 0` (line 152) and `count_ > 0` (line 173).
`time_t` values are modelled as `Int`. -/
structure connect_pool where
  alive_ : Bool
  delay_destroy_ : Bool
  last_dead_ : Int
  max_ : Nat
  count_ : Int
  retry_inter_ : Int
  idle_ttl_ : Int
  last_check_ : Int
  check_inter_ : Int
  pool_ : List Conn
  total_used_ : Nat
  current_used_ : Nat
deriving DecidableEq, Repr

namespace connect_pool

/-- The constructor `connect_pool::connect_pool(addr, max, idx)`
(lines 10-26): `alive_ = true`, `delay_destroy_ = false`, `last_dead_ = 0`,
`count_ = 0`, `idle_ttl_ = -1`, `last_check_ = 0`, `check_inter_ = 30`,
`total_used_ = 0`, `current_used_ = 0`, `retry_inter_ = 1`, empty pool. -/
def mk0 (max : Nat) : connect_pool :=
  { alive_ := true
    delay_destroy_ := false
    last_dead_ := 0
    max_ := max
    count_ := 0
    retry_inter_ := 1
    idle_ttl_ := -1
    last_check_ := 0
    check_inter_ := 30
    pool_ := []
    total_used_ := 0
    current_used_ := 0 }

/-- `connect_pool::set_idle_ttl` (lines 35-39). -/
def set_idle_ttl (s : connect_pool) (ttl : Int) : connect_pool :=
  { s with idle_ttl_ := ttl }

/-- `connect_pool::set_retry_inter` (lines 41-48). -/
def set_retry_inter (s : connect_pool) (n : Int) : connect_pool :=
  { s with retry_inter_ := n }

/-- `connect_pool::set_check_inter` (lines 50-54). -/
def set_check_inter (s : connect_pool) (n : Int) : connect_pool :=
  { s with check_inter_ := n }

/-- `connect_pool::set_alive` (lines 193-200): sets `alive_`; on `false`
records the failure time in `last_dead_`. -/
def set_alive (s : connect_pool) (ok : Bool) (now : Int) : connect_pool :=
  if ok then { s with alive_ := true }
  else { s with alive_ := false, last_dead_ := now }

/-- `connect_pool::set_delay_destroy` (lines 186-191): the body only sets
`delay_destroy_ = true` under the lock; nothing is destroyed here. -/
def set_delay_destroy (s : connect_pool) : connect_pool :=
  { s with delay_destroy_ := true }

/-- `connect_pool::aliving` (lines 56-78): returns the flag and (possibly)
the revived state.  `now` stands for `time(NULL)`. -/
def aliving (s : connect_pool) (now : Int) : Bool × connect_pool :=
  if s.alive_ then (true, s)
  else if s.retry_inter_ > 0 ∧ now - s.last_dead_ ≥ s.retry_inter_ then
    (true, { s with alive_ := true })
  else (false, s)

/-- `connect_pool::peek` (lines 80-138).  `now` stands for `time(NULL)`;
`fid` is the identity of the connection object `create_connect()` would
return and `openOk` the outcome of `conn->open()`.  Returns the connection
handed to the caller (or `none` for all three refusals: backoff, capacity,
failed open) together with the new pool state. -/
def peek (s : connect_pool) (now : Int) (fid : Nat) (openOk : Bool) :
    Option Conn × connect_pool :=
  -- lines 83-95: dead-endpoint backoff / revival
  if s.alive_ = false ∧ (s.retry_inter_ ≤ 0 ∨ now - s.last_dead_ < s.retry_inter_) then
    (none, s)
  else
    let s := { s with alive_ := true }
    match s.pool_ with
    | c :: rest =>
      -- lines 99-108: pop the front of the idle list
      (some c, { s with pool_ := rest,
                        total_used_ := s.total_used_ + 1,
                        current_used_ := s.current_used_ + 1 })
    | [] =>
      -- lines 109-115: admission control
      if s.max_ > 0 ∧ s.count_ ≥ (s.max_ : Int) then
        (none, s)
      -- lines 117-126: create_connect + open, under the lock
      else if openOk = false then
        (none, { s with alive_ := false, last_dead_ := now })
      -- lines 128-137
      else
        (some ⟨fid, 0⟩,
         { s with count_ := s.count_ + 1,
                  total_used_ := s.total_used_ + 1,
                  current_used_ := s.current_used_ + 1 })

/-- The `ttl > 0` scan of `connect_pool::check_idle` (lines 231-256), acting
on the reversed idle list (head = `rbegin`, the least recently returned
element).  An element with `when <= 0` is skipped (`continue`, line 241-245);
a fresh element (`now - when < ttl`) stops the scan keeping everything not
yet erased (line 247-248); a stale element is erased and counted.  Returns
the kept elements (still reversed) and the number evicted. -/
def scanBack (now ttl : Int) : List Conn → List Conn × Nat
  | [] => ([], 0)
  | c :: rest =>
    if c.when_ ≤ 0 then
      let (kept, n) := scanBack now ttl rest
      (c :: kept, n)
    else if now - c.when_ < ttl then
      (c :: rest, 0)
    else
      let (kept, n) := scanBack now ttl rest
      (kept, n + 1)

/-- `connect_pool::check_idle` (lines 202-261).  Returns the number of idle
connections evicted and the new state.  Note the `ttl == 0` branch
(lines 215-229) clears the idle list and sets `count_ = 0` wholesale. -/
def check_idle (s : connect_pool) (ttl now : Int) : Nat × connect_pool :=
  if ttl < 0 then (0, s)
  else if s.pool_ = [] then (0, s)
  else if ttl = 0 then
    (s.pool_.length, { s with pool_ := [], count_ := 0 })
  else
    let (kept, n) := scanBack now ttl s.pool_.reverse
    (n, { s with pool_ := kept.reverse, count_ := s.count_ - (n : Int) })

/-- The observable fate of the pool object after an operation: still live,
self-destroyed (`delete this`, line 156), or aborted by a firing
`acl_assert` (line 173). -/
inductive PoolM where
  | live (s : connect_pool)
  | destroyed
  | panicked
deriving DecidableEq, Repr

/-- `connect_pool::put` (lines 140-184).  `now` stands for `time(NULL)`.
If `delay_destroy_` is set (lines 147-161): the connection is deleted,
`count_` decremented, and when `count_ <= 0` the pool deletes itself.
Otherwise `keep && alive_` (lines 163-170) stamps the connection
(`set_when(now)`) and pushes it to the front of the idle list; else
(lines 171-176) `acl_assert(count_ > 0)` fires unless `count_ > 0`, then the
connection is deleted and `count_` decremented.  Finally (lines 178-182) the
opportunistic idle sweep runs when `idle_ttl_ >= 0` and the check interval
has elapsed. -/
def put (s : connect_pool) (c : Conn) (keep : Bool) (now : Int) : PoolM :=
  if s.delay_destroy_ then
    let s := { s with count_ := s.count_ - 1 }
    if s.count_ ≤ 0 then .destroyed else .live s
  else
    match
      (if keep ∧ s.alive_ then
        some { s with pool_ := { c with when_ := now } :: s.pool_ }
      else if s.count_ > 0 then
        some { s with count_ := s.count_ - 1 }
      else none) with
    | none => .panicked
    | some s =>
      if s.idle_ttl_ ≥ 0 ∧ now - s.last_check_ ≥ s.check_inter_ then
        let (_, s) := check_idle s s.idle_ttl_ now
        .live { s with last_check_ := now }
      else
        .live s

/-- One client-visible operation on a pool (each carries the value
`time(NULL)` would return during the call, and for `peekOp` the identity of
a freshly created connection and the outcome of its `open()`). -/
inductive Op where
  | peekOp (now : Int) (fid : Nat) (openOk : Bool)
  | putOp (c : Conn) (keep : Bool) (now : Int)
  | alivingOp (now : Int)
  | checkIdleOp (ttl now : Int)
  | delayDestroyOp
  | setAliveOp (ok : Bool) (now : Int)
  | setRetryInterOp (n : Int)
deriving DecidableEq, Repr

/-- The observable output of one operation. -/
inductive OutE where
  | got (c : Option Conn)
  | isAlive (b : Bool)
  | evicted (n : Nat)
  | done
deriving DecidableEq, Repr

/-- One step of the pool machine: dispatches an operation to the member
function it names; a destroyed or panicked pool absorbs every operation. -/
def step : PoolM → Op → PoolM × OutE
  | .live s, .peekOp now fid ok =>
    let (r, s') := s.peek now fid ok
    (.live s', .got r)
  | .live s, .putOp c keep now => (s.put c keep now, .done)
  | .live s, .alivingOp now =>
    let (b, s') := s.aliving now
    (.live s', .isAlive b)
  | .live s, .checkIdleOp ttl now =>
    let (n, s') := s.check_idle ttl now
    (.live s', .evicted n)
  | .live s, .delayDestroyOp => (.live s.set_delay_destroy, .done)
  | .live s, .setAliveOp ok now => (.live (s.set_alive ok now), .done)
  | .live s, .setRetryInterOp n => (.live (s.set_retry_inter n), .done)
  | .destroyed, _ => (.destroyed, .done)
  | .panicked, _ => (.panicked, .done)

/-- Run a list of operations, collecting the outputs in order. -/
def run : PoolM → List Op → PoolM × List OutE
  | m, [] => (m, [])
  | m, op :: ops =>
    let (m', o) := step m op
    let (m'', os) := run m' ops
    (m'', o :: os)

/-- Run a list of operations, keeping only the final machine state. -/
def runOps (m : PoolM) (ops : List Op) : PoolM :=
  (run m ops).1

/-- One step of the pool machine together with a ghost count of connections
currently held by callers: a successful `peek` hands one out, every `put`
returns one (well-formed sequences only return held connections). -/
def ghostStep : PoolM × Int → Op → PoolM × Int :=
  fun (m, g) op =>
    let (m', o) := step m op
    match op, o with
    | .putOp _ _ _, _ => (m', g - 1)
    | _, .got (some _) => (m', g + 1)
    | _, _ => (m', g)

/-- The number of simultaneously outstanding connections: those held by
callers (the ghost count) plus those idle in the pool. -/
def outstanding : PoolM × Int → Int
  | (.live s, g) => g + s.pool_.length
  | (_, g) => g

/-- Lock and I/O events inside one call of `connect_pool::peek`. -/
inductive Ev where
  | lockEv
  | unlockEv
  | openEv
deriving DecidableEq, Repr

/-- The lock/open event trace of `connect_pool::peek` (lines 80-138):
`lock_.lock()` at line 82; the backoff refusal unlocks at line 88; popping
an idle connection unlocks at line 106; the capacity refusal unlocks at
line 113; otherwise `conn->open()` runs at line 119 and the lock is released
only afterwards, at line 124 (failure) or line 133 (success). -/
def peek_events (s : connect_pool) (now : Int) : List Ev :=
  if s.alive_ = false ∧ (s.retry_inter_ ≤ 0 ∨ now - s.last_dead_ < s.retry_inter_) then
    [.lockEv, .unlockEv]
  else
    match s.pool_ with
    | _ :: _ => [.lockEv, .unlockEv]
    | [] =>
      if s.max_ > 0 ∧ s.count_ ≥ (s.max_ : Int) then
        [.lockEv, .unlockEv]
      else
        [.lockEv, .openEv, .unlockEv]

/-- `tracksLock d evs = true` iff every `openEv` in `evs` happens while the
lock depth (starting from `d`) is positive. -/
def tracksLock : Int → List Ev → Bool
  | _, [] => true
  | d, .lockEv :: es => tracksLock (d + 1) es
  | d, .unlockEv :: es => tracksLock (d - 1) es
  | d, .openEv :: es => decide (0 < d) && tracksLock d es

/-- `someOpenLocked d evs = true` iff some `openEv` in `evs` happens while
the lock depth (starting from `d`) is positive. -/
def someOpenLocked : Int → List Ev → Bool
  | _, [] => false
  | d, .lockEv :: es => someOpenLocked (d + 1) es
  | d, .unlockEv :: es => someOpenLocked (d - 1) es
  | d, .openEv :: es => decide (0 < d) || someOpenLocked d es

end connect_pool

open connect_pool

/-- Running one operation then the rest. -/
theorem runOps_cons (m : PoolM) (op : Op) (ops : List Op) :
    runOps m (op :: ops) = runOps (step m op).1 ops := rfl

/-- C1: the claim says idle + in-flight never exceeds the capacity `C > 0`,
including across `check_idle` sweeps with `ttl == 0`.  The code violates it:
on a pool of capacity 2, checking out two connections, returning one, and
sweeping with `ttl == 0` resets `count_` to 0 (line 225) although one
connection is still in flight; two further checkouts then open two fresh
connections, leaving three connections simultaneously outstanding. -/
theorem C1_check_idle_zero_breaks_capacity :
    outstanding (List.foldl ghostStep (PoolM.live (mk0 2), 0)
      [Op.peekOp 100 1 true, Op.peekOp 100 2 true,
       Op.putOp ⟨2, 0⟩ true 100, Op.checkIdleOp 0 100,
       Op.peekOp 101 3 true, Op.peekOp 101 4 true]) = 3
    ∧ (mk0 2).max_ = 2
    ∧ (run (PoolM.live (mk0 2))
        [Op.peekOp 100 1 true, Op.peekOp 100 2 true,
         Op.putOp ⟨2, 0⟩ true 100, Op.checkIdleOp 0 100,
         Op.peekOp 101 3 true, Op.peekOp 101 4 true]).2 =
      [OutE.got (some ⟨1, 0⟩), OutE.got (some ⟨2, 0⟩), OutE.done,
       OutE.evicted 1, OutE.got (some ⟨3, 0⟩), OutE.got (some ⟨4, 0⟩)] := by
  decide

/-- C9: the claim says `acl_assert(count_ > 0)` in the discard branch of
`put` never fires on well-formed sequences, even ones containing a
`check_idle(0)` sweep while connections are checked out.  The code violates
it: after checkout A, checkout B, checkin B (keep), sweep with `ttl == 0`
(which resets `count_` to 0 at line 225), the checkin of A with
`keep == false` reaches line 173 with `count_ == 0` and the assertion
fires.  Every connection put back was previously obtained from `peek` and
returned exactly once. -/
theorem C9_discard_assert_fires :
    runOps (PoolM.live (mk0 2))
      [Op.peekOp 100 1 true, Op.peekOp 100 2 true,
       Op.putOp ⟨2, 0⟩ true 100, Op.checkIdleOp 0 100,
       Op.putOp ⟨1, 0⟩ false 100] = PoolM.panicked := by
  decide

/-- C2 counterexample: the claim says `set_delay_destroy` destroys the pool
synchronously within that call when the in-flight count is zero.  It does
not: on a fresh pool with `count_ == 0` it merely sets the flag
(lines 186-191 contain no destruction). -/
theorem C2_no_sync_destroy_counterexample :
    (step (PoolM.live (mk0 4)) Op.delayDestroyOp).1
        = PoolM.live (set_delay_destroy (mk0 4))
    ∧ (step (PoolM.live (mk0 4)) Op.delayDestroyOp).1 ≠ PoolM.destroyed
    ∧ (mk0 4).count_ = 0 := by
  decide

/-- C3 counterexample: the claim says that once `set_delay_destroy` has set
the pending-destruction flag, no later `peek` returns a connection.  But
`peek` (lines 80-138) never reads `delay_destroy_`: on an alive pool with
one idle connection and the flag set, `peek` still hands the connection
out. -/
theorem C3_peek_after_delay_destroy_counterexample :
    (set_delay_destroy { mk0 2 with pool_ := [⟨7, 50⟩], count_ := 1 }).delay_destroy_ = true
    ∧ ((set_delay_destroy { mk0 2 with pool_ := [⟨7, 50⟩], count_ := 1 }).peek
        100 9 true).1 = some ⟨7, 50⟩ := by
  decide

/-- C5 counterexample: the claim says the three checkout outcomes can be
determined from `peek`'s return value.  But the backoff refusal (line 89)
and the capacity refusal (line 114) both return `NULL`: a dead pool in
backoff and an alive pool at capacity yield identical return values. -/
theorem C5_refusals_indistinguishable_counterexample :
    ({ mk0 2 with alive_ := false, last_dead_ := 100 } : connect_pool).alive_ = false
    ∧ (100 : Int) - ({ mk0 2 with alive_ := false, last_dead_ := 100 } : connect_pool).last_dead_
        < ({ mk0 2 with alive_ := false, last_dead_ := 100 } : connect_pool).retry_inter_
    ∧ ({ mk0 2 with count_ := 2 } : connect_pool).alive_ = true
    ∧ ({ mk0 2 with count_ := 2 } : connect_pool).count_
        ≥ (({ mk0 2 with count_ := 2 } : connect_pool).max_ : Int)
    ∧ (({ mk0 2 with alive_ := false, last_dead_ := 100 } : connect_pool).peek 100 1 true).1
        = (({ mk0 2 with count_ := 2 } : connect_pool).peek 100 1 true).1 := by
  decide

/-- C3 amended: `peek` never reads the pending-destruction flag: a checkout
after `set_delay_destroy` returns exactly what it would have returned before
the flag was set, and changes the state in exactly the same way (the flag
simply stays set). -/
theorem C3_amended_peek_ignores_delay_destroy
    (s : connect_pool) (now : Int) (fid : Nat) (ok : Bool) :
    (s.set_delay_destroy).peek now fid ok
      = ((s.peek now fid ok).1, (s.peek now fid ok).2.set_delay_destroy) := by
  cases s
  simp only [peek, set_delay_destroy]
  split
  · rfl
  · split
    · rfl
    · split
      · rfl
      · split <;> rfl

/-- C5 amended: `peek` has only two observable results, `some conn` or
`none`; all three refusal situations — dead endpoint in backoff, alive pool
at capacity, and a failed `open()` — return the same `none` (`NULL`), so
they cannot be told apart from the return value. -/
theorem C5_amended_all_refusals_return_none
    (s : connect_pool) (now : Int) (fid : Nat) (ok : Bool) :
    (s.alive_ = false → s.retry_inter_ ≤ 0 ∨ now - s.last_dead_ < s.retry_inter_ →
      (s.peek now fid ok).1 = none)
    ∧ (s.pool_ = [] → 0 < s.max_ → (s.max_ : Int) ≤ s.count_ →
      (s.peek now fid ok).1 = none)
    ∧ (s.pool_ = [] → (s.peek now fid false).1 = none) := by
  refine ⟨fun h1 h2 => ?_, fun h1 h2 h3 => ?_, fun h1 => ?_⟩
  · rw [peek, if_pos ⟨h1, h2⟩]
  · rw [peek]
    split
    · rfl
    · simp only [h1]
      rw [if_pos ⟨h2, h3⟩]
  · rw [peek]
    split
    · rfl
    · simp only [h1]
      split
      · rfl
      · rfl

/-- C5 witness: the three refusal situations instantiated concretely, each
returning `none`. -/
theorem C5_amended_witness :
    (({ mk0 2 with alive_ := false, last_dead_ := 100 } : connect_pool).peek 100 1 true).1 = none
    ∧ (({ mk0 2 with count_ := 2 } : connect_pool).peek 100 1 true).1 = none
    ∧ ((mk0 2).peek 100 1 false).1 = none :=
  ⟨(C5_amended_all_refusals_return_none
      { mk0 2 with alive_ := false, last_dead_ := 100 } 100 1 true).1 rfl (by decide),
   (C5_amended_all_refusals_return_none
      { mk0 2 with count_ := 2 } 100 1 true).2.1 rfl (by decide) (by decide),
   (C5_amended_all_refusals_return_none (mk0 2) 100 1 true).2.2 rfl⟩

/-- C8 counterexample: the claim says the pool lock is never held while
`conn->open()` runs.  In `peek` the lock is taken at line 82 and, on the
fresh-connection path, released only at line 124/133 — after `open()` at
line 119.  On a fresh pool the trace is lock, open, unlock: the open runs
at lock depth 1. -/
theorem C8_open_under_lock_counterexample :
    peek_events (mk0 2) 0 = [Ev.lockEv, Ev.openEv, Ev.unlockEv]
    ∧ someOpenLocked 0 (peek_events (mk0 2) 0) = true := by
  decide

/-- C8 amended: whenever a call of `peek` performs the blocking `open()`,
it does so while holding the pool lock (the lock acquired at line 82 is
released only after `open()` returns, at line 124 or 133). -/
theorem C8_amended_open_always_under_lock (s : connect_pool) (now : Int) :
    tracksLock 0 (peek_events s now) = true := by
  unfold peek_events
  split
  · decide
  · split
    · decide
    · split <;> decide

/-- A put on a pool whose pending-destruction flag is set: the connection is
deleted, the count decremented, and the pool destroys itself exactly when
the count reaches zero (lines 147-161). -/
theorem put_delay_destroy (s : connect_pool) (c : Conn) (k : Bool) (t : Int)
    (hd : s.delay_destroy_ = true) :
    s.put c k t = if s.count_ - 1 ≤ 0 then PoolM.destroyed
      else PoolM.live { s with count_ := s.count_ - 1 } := by
  simp [put, hd]

/-- A destroyed pool absorbs every operation. -/
theorem runOps_destroyed (ops : List Op) : runOps PoolM.destroyed ops = PoolM.destroyed := by
  induction ops with
  | nil => rfl
  | cons op rest ih => rw [runOps_cons]; exact ih

/-- C2 amended: `set_delay_destroy` only sets the pending-destruction flag
and never destroys the pool within that call (see
`C2_no_sync_destroy_counterexample`); once the flag is set on a pool whose
count is `N ≥ 1` (N connections in flight, none idle being counted twice),
any `k < N` checkins leave the pool alive with count `N - k` and free no
pool state, and exactly the `N`-th checkin destroys the pool — exactly once,
since the destroyed state is terminal. -/
theorem C2_drain_then_destroy (s : connect_pool) (N : ℕ)
    (hd : s.delay_destroy_ = true) (hc : s.count_ = (N : Int))
    (ops : List Op) (hops : ∀ op ∈ ops, ∃ c k t, op = Op.putOp c k t)
    (hlen : ops.length ≤ N) :
    (∀ s0 : connect_pool, set_delay_destroy s0 = { s0 with delay_destroy_ := true })
    ∧ (ops.length < N →
        runOps (PoolM.live s) ops
          = PoolM.live { s with count_ := (N : Int) - ops.length })
    ∧ (ops.length = N → 1 ≤ N → runOps (PoolM.live s) ops = PoolM.destroyed) := by
  refine ⟨fun _ => rfl, ?_⟩
  induction ops generalizing s N with
  | nil =>
    refine ⟨fun _ => ?_, fun h h1 => by simp at h; omega⟩
    have : ((N : Int) - ((List.nil (α := Op)).length : Int)) = s.count_ := by
      simp [hc]
    rw [show runOps (PoolM.live s) [] = PoolM.live s from rfl]
    congr 1
    cases s
    simp_all
  | cons op rest ih =>
    obtain ⟨c, k, t, rfl⟩ := hops _ (List.mem_cons_self _ _)
    rw [runOps_cons,
        show (step (PoolM.live s) (Op.putOp c k t)).1 = s.put c k t from rfl,
        put_delay_destroy s c k t hd]
    have hlen1 : rest.length + 1 ≤ N := by simpa using hlen
    by_cases hone : s.count_ - 1 ≤ 0
    · -- count was 1: the pool destroys itself on this checkin
      have hN : N = 1 := by
        rw [hc] at hone
        omega
      rw [if_pos hone, runOps_destroyed]
      subst hN
      refine ⟨fun h => ?_, fun _ _ => rfl⟩
      · simp only [List.length_cons] at h
        omega
    · -- count was > 1: pool stays live with count - 1
      rw [if_neg hone]
      have hN1 : 1 ≤ N := by omega
      have hc' : ({ s with count_ := s.count_ - 1 } : connect_pool).count_
          = ((N - 1 : ℕ) : Int) := by
        simp [hc]
        omega
      have hops' : ∀ op ∈ rest, ∃ c k t, op = Op.putOp c k t :=
        fun op hop => hops op (List.mem_cons_of_mem _ hop)
      have hlen' : rest.length ≤ N - 1 := by omega
      obtain ⟨ih1, ih2⟩ :=
        ih ({ s with count_ := s.count_ - 1 }) (N - 1) hd hc' hops' hlen'
      refine ⟨fun h => ?_, fun h h1 => ?_⟩
      · have hlt : rest.length < N - 1 := by
          have : rest.length + 1 < N := by simpa using h
          omega
        rw [ih1 hlt]
        congr 1
        cases s
        simp only [List.length_cons]
        congr 1
        omega
      · have heq : rest.length = N - 1 := by
          have : rest.length + 1 = N := by simpa using h
          omega
        have h1' : 1 ≤ N - 1 := by
          rw [hc] at hone
          omega
        exact ih2 heq h1'

/-- C2 witness: a pool with the flag set and two connections in flight is
destroyed by the second checkin. -/
theorem C2_drain_then_destroy_witness :
    runOps (PoolM.live { mk0 2 with delay_destroy_ := true, count_ := 2 })
      [Op.putOp ⟨1, 0⟩ false 5, Op.putOp ⟨2, 0⟩ false 6] = PoolM.destroyed :=
  (C2_drain_then_destroy { mk0 2 with delay_destroy_ := true, count_ := 2 } 2
    rfl (by decide)
    [Op.putOp ⟨1, 0⟩ false 5, Op.putOp ⟨2, 0⟩ false 6]
    (by
      intro op hop
      fin_cases hop
      · exact ⟨⟨1, 0⟩, false, 5, rfl⟩
      · exact ⟨⟨2, 0⟩, false, 6, rfl⟩)
    (by decide)).2.2 rfl (by decide)

/-- C4: after a failed `open()` the pool transitions to dead and records the
failure time; every checkout while `now - last_dead_ < retry_inter_` (with a
positive retry interval, the configured backoff) returns the refusal
without touching the state and independently of any open outcome — no open
is attempted; and the first checkout at which `now - last_dead_ ≥
retry_inter_` flips the pool back to alive and attempts a fresh open (which
hands out the new connection on success, or re-enters the dead state with
the new failure time on failure).  The hypotheses describe the state in
which an open can fail: alive, empty idle list, capacity not exhausted. -/
theorem C4_backoff_until_retry_interval (s : connect_pool) (now0 : Int) (fid0 : Nat)
    (ha : s.alive_ = true) (hp : s.pool_ = [])
    (hcap : ¬(0 < s.max_ ∧ (s.max_ : Int) ≤ s.count_))
    (hr : 0 < s.retry_inter_) :
    s.peek now0 fid0 false = (none, { s with alive_ := false, last_dead_ := now0 })
    ∧ (∀ now fid ok, now - now0 < s.retry_inter_ →
        ({ s with alive_ := false, last_dead_ := now0 } : connect_pool).peek now fid ok
          = (none, { s with alive_ := false, last_dead_ := now0 }))
    ∧ (∀ now fid, s.retry_inter_ ≤ now - now0 →
        ({ s with alive_ := false, last_dead_ := now0 } : connect_pool).peek now fid true
          = (some ⟨fid, 0⟩,
             { s with last_dead_ := now0, count_ := s.count_ + 1,
                      total_used_ := s.total_used_ + 1,
                      current_used_ := s.current_used_ + 1 })
        ∧ ({ s with alive_ := false, last_dead_ := now0 } : connect_pool).peek now fid false
          = (none, { s with alive_ := false, last_dead_ := now })) := by
  cases s with
  | mk al dd ld mx cnt ri it lc ci pl tu cu =>
    simp only at ha hp hcap hr
    subst ha
    subst hp
    refine ⟨?_, fun now fid ok hlt => ?_,
      fun now fid hge => have hge' : ri ≤ now - now0 := hge; ⟨?_, ?_⟩⟩
    · rw [peek, if_neg (show ¬((true : Bool) = false ∧ _) from by simp)]
      simp only
      rw [if_neg hcap]
      rfl
    · rw [peek, if_pos ⟨rfl, Or.inr (show now - now0 < ri by simpa using hlt)⟩]
    · rw [peek,
        if_neg (show ¬((false : Bool) = false ∧ (ri ≤ 0 ∨ now - now0 < ri)) from by
          simp
          omega)]
      simp only
      rw [if_neg hcap]
      rfl
    · rw [peek,
        if_neg (show ¬((false : Bool) = false ∧ (ri ≤ 0 ∨ now - now0 < ri)) from by
          simp
          omega)]
      simp only
      rw [if_neg hcap]
      rfl

/-- C4 witness: a capacity-2 pool whose open fails at time 10 refuses at
time 10 (backoff, retry interval 1) and at time 11 attempts a fresh open,
which succeeds. -/
theorem C4_backoff_until_retry_interval_witness :
    (mk0 2).peek 10 1 false
        = (none, { mk0 2 with alive_ := false, last_dead_ := 10 })
    ∧ ({ mk0 2 with alive_ := false, last_dead_ := 10 } : connect_pool).peek 10 2 true
        = (none, { mk0 2 with alive_ := false, last_dead_ := 10 })
    ∧ ({ mk0 2 with alive_ := false, last_dead_ := 10 } : connect_pool).peek 11 3 true
        = (some ⟨3, 0⟩,
           { mk0 2 with last_dead_ := 10, count_ := 1,
                        total_used_ := 1, current_used_ := 1 }) :=
  ⟨(C4_backoff_until_retry_interval (mk0 2) 10 1 rfl rfl (by decide) (by decide)).1,
   (C4_backoff_until_retry_interval (mk0 2) 10 1 rfl rfl (by decide) (by decide)).2.1
     10 2 true (by decide),
   ((C4_backoff_until_retry_interval (mk0 2) 10 1 rfl rfl (by decide) (by decide)).2.2
     11 3 (by decide)).1⟩

/-- On a scan list whose timestamps are positive and non-decreasing (oldest
first, as produced by reversing the most-recently-returned-first idle list),
the backward scan of `check_idle` evicts exactly the stale connections and
keeps exactly the fresh ones. -/
theorem scanBack_eq_filter (now ttl : Int) (l : List Conn)
    (hpos : ∀ c ∈ l, 0 < c.when_)
    (hsort : l.Pairwise fun a b => a.when_ ≤ b.when_) :
    scanBack now ttl l
      = (l.filter (fun c => decide (now - c.when_ < ttl)),
         (l.filter (fun c => decide (ttl ≤ now - c.when_))).length) := by
  induction l with
  | nil => simp [scanBack]
  | cons c rest ih =>
    have hc : 0 < c.when_ := hpos c (List.mem_cons_self _ _)
    have hnot : ¬ c.when_ ≤ 0 := by omega
    by_cases hf : now - c.when_ < ttl
    · have hall : ∀ b ∈ rest, now - b.when_ < ttl := by
        intro b hb
        have hba := (List.pairwise_cons.mp hsort).1 b hb
        omega
      have h1 : rest.filter (fun x => decide (now - x.when_ < ttl)) = rest :=
        List.filter_eq_self.mpr fun a ha => by
          simpa using hall a ha
      have h2 : rest.filter (fun x => decide (ttl ≤ now - x.when_)) = [] :=
        List.filter_eq_nil_iff.mpr fun a ha => by
          have := hall a ha
          simp
          omega
      simp only [scanBack, if_neg hnot, if_pos hf, List.filter_cons, h1, h2]
      have hcf : decide (now - c.when_ < ttl) = true := by simpa using hf
      have hcs : decide (ttl ≤ now - c.when_) = false := by
        simp
        omega
      simp [hcf, hcs]
    · have ih' := ih (fun b hb => hpos b (List.mem_cons_of_mem _ hb)) hsort.of_cons
      have hcf : decide (now - c.when_ < ttl) = false := by
        simp
        omega
      have hcs : decide (ttl ≤ now - c.when_) = true := by
        simp
        omega
      simp only [scanBack, if_neg hnot, if_neg hf, ih', List.filter_cons, hcf, hcs]
      simp

/-- C6: `check_idle` with `ttl < 0` changes nothing and evicts nothing
(lines 204-205); with `ttl == 0` it evicts every idle connection
unconditionally (lines 215-229); with `ttl > 0`, on a time-ordered idle list
(most recently returned first, all timestamps positive), it scans from the
least-recently-used end, evicts exactly the connections whose idle duration
`now - when` is `≥ ttl`, and keeps every fresher connection in place
(lines 231-256). -/
theorem C6_reap_idle (s : connect_pool) (now : Int) :
    (∀ ttl : Int, ttl < 0 → s.check_idle ttl now = (0, s))
    ∧ ((s.check_idle 0 now).1 = s.pool_.length ∧ (s.check_idle 0 now).2.pool_ = [])
    ∧ (∀ ttl : Int, 0 < ttl →
        (∀ c ∈ s.pool_, 0 < c.when_) →
        s.pool_.Pairwise (fun a b => b.when_ ≤ a.when_) →
        (s.check_idle ttl now).2.pool_
            = s.pool_.filter (fun c => decide (now - c.when_ < ttl))
        ∧ (s.check_idle ttl now).1
            = (s.pool_.filter (fun c => decide (ttl ≤ now - c.when_))).length) := by
  refine ⟨fun ttl httl => ?_, ⟨?_, ?_⟩, fun ttl httl hpos hsort => ?_⟩
  · rw [check_idle, if_pos httl]
  · rw [check_idle, if_neg (by omega)]
    by_cases hpl : s.pool_ = []
    · rw [if_pos hpl, hpl]
      rfl
    · rw [if_neg hpl, if_pos rfl]
  · rw [check_idle, if_neg (by omega)]
    by_cases hpl : s.pool_ = []
    · rw [if_pos hpl, hpl]
    · rw [if_neg hpl, if_pos rfl]
  · have hrev : scanBack now ttl s.pool_.reverse
        = (s.pool_.reverse.filter (fun c => decide (now - c.when_ < ttl)),
           (s.pool_.reverse.filter (fun c => decide (ttl ≤ now - c.when_))).length) :=
      scanBack_eq_filter now ttl s.pool_.reverse
        (fun c hc => hpos c (List.mem_reverse.mp hc))
        (List.pairwise_reverse.mpr hsort)
    rw [check_idle, if_neg (by omega)]
    by_cases hpl : s.pool_ = []
    · rw [if_pos hpl]
      simp [hpl]
    · rw [if_neg hpl, if_neg (by omega)]
      rw [List.filter_reverse, List.filter_reverse] at hrev
      simp [hrev]

/-- C6 witness: on a pool holding idle connections stamped 98, 60, 50 at
time 100, `check_idle` with `ttl = -1` is a no-op, with `ttl = 0` evicts all
three, and with `ttl = 30` evicts the two stale ones and keeps the fresh
front. -/
theorem C6_reap_idle_witness :
    ({ mk0 3 with pool_ := [⟨1, 98⟩, ⟨2, 60⟩, ⟨3, 50⟩], count_ := 3 }
        : connect_pool).check_idle (-1) 100
      = (0, { mk0 3 with pool_ := [⟨1, 98⟩, ⟨2, 60⟩, ⟨3, 50⟩], count_ := 3 })
    ∧ (({ mk0 3 with pool_ := [⟨1, 98⟩, ⟨2, 60⟩, ⟨3, 50⟩], count_ := 3 }
        : connect_pool).check_idle 0 100).1 = 3
    ∧ (({ mk0 3 with pool_ := [⟨1, 98⟩, ⟨2, 60⟩, ⟨3, 50⟩], count_ := 3 }
        : connect_pool).check_idle 30 100).2.pool_ = [⟨1, 98⟩]
    ∧ (({ mk0 3 with pool_ := [⟨1, 98⟩, ⟨2, 60⟩, ⟨3, 50⟩], count_ := 3 }
        : connect_pool).check_idle 30 100).1 = 2 := by
  have h := C6_reap_idle
    { mk0 3 with pool_ := [⟨1, 98⟩, ⟨2, 60⟩, ⟨3, 50⟩], count_ := 3 } 100
  have h3 := h.2.2 30 (by decide) (by decide) (by decide)
  exact ⟨h.1 (-1) (by decide), by rw [h.2.1.1]; decide,
         by rw [h3.1]; decide, by rw [h3.2]; decide⟩

/-- A checkin with `keep = true` on an alive pool that is not pending
destruction and has idle reaping disabled: the connection is stamped with
`now` and pushed to the front of the idle list (lines 163-170); the
opportunistic sweep (lines 178-182) does not run because `idle_ttl_ < 0`. -/
theorem put_keep_alive (s : connect_pool) (c : Conn) (t : Int)
    (ha : s.alive_ = true) (hd : s.delay_destroy_ = false) (httl : s.idle_ttl_ < 0) :
    s.put c true t
      = PoolM.live { s with pool_ := { c with when_ := t } :: s.pool_ } := by
  rw [put, if_neg (by simp [hd])]
  rw [if_pos (by simp [ha])]
  dsimp only
  rw [if_neg (by simp; omega)]

/-- A checkout from an alive pool with a nonempty idle list pops the front
of the list (lines 99-108). -/
theorem peek_pop (s : connect_pool) (c : Conn) (rest : List Conn)
    (now : Int) (fid : Nat) (ok : Bool)
    (ha : s.alive_ = true) (hp : s.pool_ = c :: rest) :
    s.peek now fid ok
      = (some c, { s with pool_ := rest, total_used_ := s.total_used_ + 1,
                          current_used_ := s.current_used_ + 1 }) := by
  rw [peek, if_neg (by simp [ha])]
  simp [hp, ha]

/-- C7: idle connections are reused in last-in-first-out order.  On an alive
pool that is not pending destruction and with idle reaping disabled
(`idle_ttl_ < 0`, the constructed default), checking in `c1` then `c2` with
`keep = true` pushes each to the front of the idle list with its timestamp
refreshed (lines 163-170), and the next two checkouts pop the front
(lines 99-108): they return `c2` (stamped `t2`) and then `c1` (stamped
`t1`), whatever times, fresh ids and open outcomes those checkouts see. -/
theorem C7_lifo_reuse (s : connect_pool) (c1 c2 : Conn) (t1 t2 now1 now2 : Int)
    (fid1 fid2 : Nat) (ok1 ok2 : Bool)
    (ha : s.alive_ = true) (hd : s.delay_destroy_ = false) (httl : s.idle_ttl_ < 0) :
    s.put c1 true t1
        = PoolM.live { s with pool_ := { c1 with when_ := t1 } :: s.pool_ }
    ∧ ({ s with pool_ := { c1 with when_ := t1 } :: s.pool_ } : connect_pool).put c2 true t2
        = PoolM.live { s with
            pool_ := { c2 with when_ := t2 } :: { c1 with when_ := t1 } :: s.pool_ }
    ∧ (({ s with
          pool_ := { c2 with when_ := t2 } :: { c1 with when_ := t1 } :: s.pool_ }
          : connect_pool).peek now1 fid1 ok1).1
        = some { c2 with when_ := t2 }
    ∧ ((({ s with
           pool_ := { c2 with when_ := t2 } :: { c1 with when_ := t1 } :: s.pool_ }
           : connect_pool).peek now1 fid1 ok1).2.peek now2 fid2 ok2).1
        = some { c1 with when_ := t1 } := by
  have h1 := put_keep_alive s c1 t1 ha hd httl
  have h2 := put_keep_alive { s with pool_ := { c1 with when_ := t1 } :: s.pool_ }
    c2 t2 ha hd httl
  have h3 := peek_pop
    { s with pool_ := { c2 with when_ := t2 } :: { c1 with when_ := t1 } :: s.pool_ }
    { c2 with when_ := t2 } ({ c1 with when_ := t1 } :: s.pool_) now1 fid1 ok1 ha rfl
  refine ⟨h1, h2, by rw [h3], ?_⟩
  rw [h3]
  exact congrArg Prod.fst (peek_pop
    { s with pool_ := { c1 with when_ := t1 } :: s.pool_,
             total_used_ := s.total_used_ + 1,
             current_used_ := s.current_used_ + 1 }
    { c1 with when_ := t1 } s.pool_ now2 fid2 ok2 ha rfl)

/-- C7 witness: on a fresh capacity-2 pool, checkin of connection 1 at time
10 and connection 2 at time 11, then two checkouts, yield connection 2 and
then connection 1. -/
theorem C7_lifo_reuse_witness :
    (mk0 2).put ⟨1, 0⟩ true 10
        = PoolM.live { mk0 2 with pool_ := [⟨1, 10⟩] }
    ∧ ({ mk0 2 with pool_ := [⟨1, 10⟩] } : connect_pool).put ⟨2, 0⟩ true 11
        = PoolM.live { mk0 2 with pool_ := [⟨2, 11⟩, ⟨1, 10⟩] }
    ∧ (({ mk0 2 with pool_ := [⟨2, 11⟩, ⟨1, 10⟩] } : connect_pool).peek 12 5 true).1
        = some ⟨2, 11⟩
    ∧ ((({ mk0 2 with pool_ := [⟨2, 11⟩, ⟨1, 10⟩] } : connect_pool).peek 12 5 true).2.peek
        13 6 true).1 = some ⟨1, 10⟩ :=
  C7_lifo_reuse (mk0 2) ⟨1, 0⟩ ⟨2, 0⟩ 10 11 12 13 5 6 true true rfl rfl (by decide)

/-- `check_idle` never changes the health state or the retry interval. -/
theorem check_idle_health (s : connect_pool) (ttl now : Int) :
    (s.check_idle ttl now).2.alive_ = s.alive_
    ∧ (s.check_idle ttl now).2.retry_inter_ = s.retry_inter_ := by
  rw [check_idle]
  split
  · exact ⟨rfl, rfl⟩
  · split
    · exact ⟨rfl, rfl⟩
    · split
      · exact ⟨rfl, rfl⟩
      · generalize scanBack now ttl s.pool_.reverse = p
        cases p
        exact ⟨rfl, rfl⟩

/-- `put` never changes the health state or the retry interval of a pool
that stays live. -/
theorem put_health (s : connect_pool) (c : Conn) (k : Bool) (t : Int)
    (s' : connect_pool) (h : s.put c k t = PoolM.live s') :
    s'.alive_ = s.alive_ ∧ s'.retry_inter_ = s.retry_inter_ := by
  rw [put] at h
  split at h
  · dsimp only at h
    split at h
    · exact absurd h (by simp)
    · injection h with h
      subst h
      exact ⟨rfl, rfl⟩
  · split at h
    · exact absurd h (by simp)
    · rename_i s1 heq
      split at h
      · injection h with h
        subst h
        have hci := check_idle_health s1 s1.idle_ttl_ t
        split at heq
        · injection heq with heq
          subst heq
          exact ⟨hci.1, hci.2⟩
        · split at heq
          · injection heq with heq
            subst heq
            exact ⟨hci.1, hci.2⟩
          · exact absurd heq (by simp)
      · injection h with h
        subst h
        split at heq
        · injection heq with heq
          subst heq
          exact ⟨rfl, rfl⟩
        · split at heq
          · injection heq with heq
            subst heq
            exact ⟨rfl, rfl⟩
          · exact absurd heq (by simp)

/-- Unfolding one step of `run`. -/
theorem run_cons (m : PoolM) (op : Op) (ops : List Op) :
    run m (op :: ops)
      = ((run (step m op).1 ops).1, (step m op).2 :: (run (step m op).1 ops).2) := by
  rcases hstep : step m op with ⟨m1, o1⟩
  rcases hrun : run m1 ops with ⟨m2, os⟩
  simp [run, hstep, hrun]

/-- One step preserves "dead with non-positive retry interval" and can
neither hand out a connection nor report the pool alive, as long as the
operation is not an explicit `set_alive(true)` or a positive
`set_retry_inter`. -/
theorem step_dead_stuck (m : PoolM) (op : Op)
    (hm : ∀ u : connect_pool, m = PoolM.live u → u.alive_ = false ∧ u.retry_inter_ ≤ 0)
    (hop1 : ∀ t : Int, op ≠ Op.setAliveOp true t)
    (hop2 : ∀ n : Int, 0 < n → op ≠ Op.setRetryInterOp n) :
    (∀ u : connect_pool, (step m op).1 = PoolM.live u →
        u.alive_ = false ∧ u.retry_inter_ ≤ 0)
    ∧ (∀ c : Conn, (step m op).2 ≠ OutE.got (some c))
    ∧ (step m op).2 ≠ OutE.isAlive true := by
  cases m with
  | destroyed => cases op <;> simp [step]
  | panicked => cases op <;> simp [step]
  | live s =>
    obtain ⟨ha, hr⟩ := hm s rfl
    cases op with
    | peekOp now fid ok =>
      have hpeek : s.peek now fid ok = (none, s) := by
        rw [peek, if_pos ⟨ha, Or.inl hr⟩]
      refine ⟨fun u hu => ?_, by simp [step, hpeek], by simp [step, hpeek]⟩
      simp only [step, hpeek] at hu
      injection hu with hu
      subst hu
      exact ⟨ha, hr⟩
    | putOp c k t =>
      refine ⟨fun u hu => ?_, by simp [step], by simp [step]⟩
      simp only [step] at hu
      obtain ⟨h1, h2⟩ := put_health s c k t u hu
      exact ⟨h1.trans ha, h2.trans_le hr⟩
    | alivingOp now =>
      have hal : s.aliving now = (false, s) := by
        rw [aliving, if_neg (by simp [ha]), if_neg (fun h => absurd h.1 (by omega))]
      refine ⟨fun u hu => ?_, by simp [step, hal], by simp [step, hal]⟩
      simp only [step, hal] at hu
      injection hu with hu
      subst hu
      exact ⟨ha, hr⟩
    | checkIdleOp ttl now =>
      refine ⟨fun u hu => ?_, by simp [step], by simp [step]⟩
      simp only [step] at hu
      injection hu with hu
      subst hu
      have hci := check_idle_health s ttl now
      exact ⟨hci.1.trans ha, hci.2.trans_le hr⟩
    | delayDestroyOp =>
      refine ⟨fun u hu => ?_, by simp [step], by simp [step]⟩
      simp only [step] at hu
      injection hu with hu
      subst hu
      exact ⟨ha, hr⟩
    | setAliveOp ok t =>
      cases ok with
      | true => exact absurd rfl (hop1 t)
      | false =>
        refine ⟨fun u hu => ?_, by simp [step], by simp [step]⟩
        simp only [step, set_alive] at hu
        injection hu with hu
        subst hu
        exact ⟨rfl, hr⟩
    | setRetryInterOp n =>
      have hn : n ≤ 0 := by
        by_contra hpos
        exact hop2 n (by omega) rfl
      refine ⟨fun u hu => ?_, by simp [step], by simp [step]⟩
      simp only [step, set_retry_inter] at hu
      injection hu with hu
      subst hu
      exact ⟨ha, hn⟩

/-- C10: a dead pool whose retry interval is zero or negative never
self-heals.  For every sequence of pool operations that contains no
explicit `set_alive(true)` and no `set_retry_inter` with a positive value,
every `peek` returns the refusal (never a connection), every `aliving`
returns `false`, and the pool — if still live — remains dead with a
non-positive retry interval, regardless of the times the operations see. -/
theorem C10_dead_pool_never_self_heals
    (s : connect_pool) (h1 : s.alive_ = false) (h2 : s.retry_inter_ ≤ 0)
    (ops : List Op)
    (hops : ∀ op ∈ ops, (∀ t : Int, op ≠ Op.setAliveOp true t)
        ∧ (∀ n : Int, 0 < n → op ≠ Op.setRetryInterOp n)) :
    (∀ o ∈ (run (PoolM.live s) ops).2,
        (∀ c : Conn, o ≠ OutE.got (some c)) ∧ o ≠ OutE.isAlive true)
    ∧ (∀ u : connect_pool, (run (PoolM.live s) ops).1 = PoolM.live u →
        u.alive_ = false ∧ u.retry_inter_ ≤ 0) := by
  suffices h : ∀ (m : PoolM),
      (∀ u : connect_pool, m = PoolM.live u → u.alive_ = false ∧ u.retry_inter_ ≤ 0) →
      (∀ op ∈ ops, (∀ t : Int, op ≠ Op.setAliveOp true t)
          ∧ (∀ n : Int, 0 < n → op ≠ Op.setRetryInterOp n)) →
      (∀ o ∈ (run m ops).2,
          (∀ c : Conn, o ≠ OutE.got (some c)) ∧ o ≠ OutE.isAlive true)
      ∧ (∀ u : connect_pool, (run m ops).1 = PoolM.live u →
          u.alive_ = false ∧ u.retry_inter_ ≤ 0) by
    exact h (PoolM.live s)
      (fun u hu => by injection hu with hu; subst hu; exact ⟨h1, h2⟩) hops
  clear hops h1 h2 s
  induction ops with
  | nil =>
    intro m hm _
    exact ⟨fun o ho => absurd ho (by simp [run]), fun u hu => hm u hu⟩
  | cons op rest ih =>
    intro m hm hops
    have hstep := step_dead_stuck m op (hm)
      (hops op (List.mem_cons_self _ _)).1 (hops op (List.mem_cons_self _ _)).2
    have hrest := ih (step m op).1 hstep.1
      (fun op' hop' => hops op' (List.mem_cons_of_mem _ hop'))
    rw [run_cons]
    refine ⟨fun o ho => ?_, hrest.2⟩
    rcases List.mem_cons.mp ho with rfl | ho'
    · exact ⟨hstep.2.1, hstep.2.2⟩
    · exact hrest.1 o ho'

/-- C10 witness: a dead pool with retry interval 0 is probed far in the
future: `aliving` still answers `false` and both `peek`s still refuse. -/
theorem C10_dead_pool_never_self_heals_witness :
    OutE.isAlive true ∉
      (run (PoolM.live { mk0 2 with alive_ := false, retry_inter_ := 0 })
        [Op.alivingOp 1000, Op.peekOp 2000 1 true,
         Op.checkIdleOp 0 50, Op.peekOp 99999 2 true]).2
    ∧ OutE.got (some ⟨1, 0⟩) ∉
      (run (PoolM.live { mk0 2 with alive_ := false, retry_inter_ := 0 })
        [Op.alivingOp 1000, Op.peekOp 2000 1 true,
         Op.checkIdleOp 0 50, Op.peekOp 99999 2 true]).2 :=
  ⟨fun hmem =>
    ((C10_dead_pool_never_self_heals
        { mk0 2 with alive_ := false, retry_inter_ := 0 } rfl (by decide)
        [Op.alivingOp 1000, Op.peekOp 2000 1 true,
         Op.checkIdleOp 0 50, Op.peekOp 99999 2 true]
        (by
          intro op hop
          fin_cases hop <;>
            exact ⟨fun t h => (nomatch h), fun n hn h => nomatch h⟩)).1
      (OutE.isAlive true) hmem).2 rfl,
   fun hmem =>
    ((C10_dead_pool_never_self_heals
        { mk0 2 with alive_ := false, retry_inter_ := 0 } rfl (by decide)
        [Op.alivingOp 1000, Op.peekOp 2000 1 true,
         Op.checkIdleOp 0 50, Op.peekOp 99999 2 true]
        (by
          intro op hop
          fin_cases hop <;>
            exact ⟨fun t h => (nomatch h), fun n hn h => nomatch h⟩)).1
      (OutE.got (some ⟨1, 0⟩)) hmem).1 ⟨1, 0⟩ rfl⟩

end Acl
